import Mathlib

/-!
Verification of the time-discretization and nonlinear-system adapter layer
(`Tests/NumLib/TimeDiscretizedODESystem.h`): matrix translators
(general and forward-Euler variants) and the Newton/Picard
`TimeDiscretizedODESystem` adapters, shallowly embedded over exact
rational arithmetic.
-/

namespace OGS

/-- Square rational matrix of dimension `n`, standing for the C++ `Matrix`. -/
abbrev Mat (n : ℕ) := Matrix (Fin n) (Fin n) ℚ

/-- Rational vector of length `n`, standing for the C++ `Vector`. -/
abbrev Vec (n : ℕ) := Fin n → ℚ

/-- Modelled from the spec: the time-discretization strategy contract
(`ITimeDiscretization`, and the `ForwardEuler` extra accessor `getXOld`),
whose header `TimeDiscretization.h` is not part of the provided sources.
Per spec section 4.1 it exposes the current time, the current-step weight
alpha, the scheme-selected evaluation point `getCurrentX`, the weighted
old-state history vector, linearity of the scheme, a Jacobian correction
`adjustMatrix`, and (used by the Picard adapter) `getA`/`getRhs`.
All fields are abstract data: theorems quantify over them. -/
structure TimeDisc (n : ℕ) where
  getCurrentTime : ℚ
  getCurrentXWeight : ℚ
  getCurrentX : Vec n → Vec n
  getWeightedOldX : Vec n
  getXOld : Vec n
  getDxDx : ℚ
  isLinearTimeDisc : Bool
  adjustMatrix : Mat n → Mat n
  getA : Mat n → Mat n → Mat n
  getRhs : Mat n → Mat n → Vec n → Vec n

/-- Modelled from the spec: the Equation contract
(`IFirstOrderImplicitOde`, header `NonlinSolver.h` not part of the provided
sources): `assemble(t, x)` yields fresh `(M, K, b)`, `assembleJacobian`
yields the analytic Jacobian from `(t, x_curr, dxdot_dx, dx_dx)` and the
previous scratch Jacobian, and `isLinear` reports equation linearity. -/
structure Ode (n : ℕ) where
  isLinear : Bool
  assemble : ℚ → Vec n → Mat n × Mat n × Vec n
  assembleJacobian : ℚ → Vec n → ℚ → ℚ → Mat n → Mat n

/-- The abstract `MatrixTranslator<IParabolicEquation>` interface: a record
of the four virtual operations. -/
structure MatrixTranslator (n : ℕ) where
  getA : Mat n → Mat n → Mat n
  getRhs : Mat n → Mat n → Vec n → Vec n
  getResidual : Mat n → Mat n → Vec n → Vec n → Vec n
  getJacobian : Mat n → Mat n

/-- `MatrixTranslatorGeneral<IParabolicEquation>` bound to time
discretization `td` (`_time_disc` in the source).
`getA` returns `M * dxdot_dx + K`; `getRhs` returns
`b + M * weighted_old_x`; `getResidual` returns `M * x_dot + K * x_curr - b`
with `x_dot = alpha * x_new_timestep - x_old`; `getJacobian` returns its
argument. -/
def matrixTranslatorGeneral (td : TimeDisc n) : MatrixTranslator n :=
  { getA := fun M K => td.getCurrentXWeight • M + K
    getRhs := fun M _K b => b + M.mulVec td.getWeightedOldX
    getResidual := fun M K b x_new_timestep =>
      let alpha := td.getCurrentXWeight
      let x_curr := td.getCurrentX x_new_timestep
      let x_old := td.getWeightedOldX
      let x_dot := alpha • x_new_timestep - x_old
      M.mulVec x_dot + K.mulVec x_curr - b
    getJacobian := fun Jac => Jac }

/-- `MatrixTranslatorForwardEuler<IParabolicEquation>` bound to the forward
Euler scheme `fwd` (`_fwd_euler` in the source).
`getA` returns `M * dxdot_dx` (ignores `K`); `getRhs` returns
`b + M * weighted_old_x - K * x_old`; `getResidual` is the same formula as
the general variant; `getJacobian` returns its argument. -/
def matrixTranslatorForwardEuler (fwd : TimeDisc n) : MatrixTranslator n :=
  { getA := fun M _K => fwd.getCurrentXWeight • M
    getRhs := fun M K b =>
      b + M.mulVec fwd.getWeightedOldX - K.mulVec fwd.getXOld
    getResidual := fun M K b x_new_timestep =>
      let alpha := fwd.getCurrentXWeight
      let x_curr := fwd.getCurrentX x_new_timestep
      let x_old := fwd.getWeightedOldX
      let x_dot := alpha • x_new_timestep - x_old
      M.mulVec x_dot + K.mulVec x_curr - b
    getJacobian := fun Jac => Jac }

/-- The residual formula as the spec (section 4.2) words it:
`x_dot = alpha * x_new - weightedOldX`; `r = M * x_dot + K * x_curr - b`
with `x_curr` the scheme-selected evaluation point. Stated separately so
the two translator variants can be proved to refine it. -/
def residualSpec (td : TimeDisc n) (M K : Mat n) (b x_new : Vec n) : Vec n :=
  M.mulVec (td.getCurrentXWeight • x_new - td.getWeightedOldX)
    + K.mulVec (td.getCurrentX x_new) - b

/-- `TimeDiscretizedODESystem<NonlinearSolverTag::Newton>`: bound
references `_ode`, `_time_disc`, `_mat_trans` and owned scratch storage
`_Jac`, `_M`, `_K`, `_b`. -/
structure NewtonSystem (n : ℕ) where
  ode : Ode n
  time_disc : TimeDisc n
  mat_trans : MatrixTranslator n
  Jac : Mat n
  M : Mat n
  K : Mat n
  b : Vec n

/-- `assembleResidualNewton`: resolve `t` and `x_curr` from the strategy,
then let the ODE assemble into the owned `_M`, `_K`, `_b`. -/
def NewtonSystem.assembleResidualNewton (s : NewtonSystem n)
    (x_new_timestep : Vec n) : NewtonSystem n :=
  let t := s.time_disc.getCurrentTime
  let x_curr := s.time_disc.getCurrentX x_new_timestep
  let MKb := s.ode.assemble t x_curr
  { s with M := MKb.1, K := MKb.2.1, b := MKb.2.2 }

/-- `assembleJacobian`: let the ODE assemble the Jacobian into `_Jac`,
then apply the scheme correction `adjustMatrix` to it. -/
def NewtonSystem.assembleJacobian (s : NewtonSystem n)
    (x_new_timestep : Vec n) : NewtonSystem n :=
  let t := s.time_disc.getCurrentTime
  let x_curr := s.time_disc.getCurrentX x_new_timestep
  let dxdot_dx := s.time_disc.getCurrentXWeight
  let assembled := s.ode.assembleJacobian t x_curr dxdot_dx
    s.time_disc.getDxDx s.Jac
  { s with Jac := s.time_disc.adjustMatrix assembled }

/-- Newton `getResidual`: delegates to the bound translator on the stored
matrices; a const method, returned alongside the (unchanged) state. -/
def NewtonSystem.getResidual (s : NewtonSystem n) (x_new_timestep : Vec n) :
    Vec n × NewtonSystem n :=
  (s.mat_trans.getResidual s.M s.K s.b x_new_timestep, s)

/-- Newton `getJacobian`: delegates to the bound translator on the stored
`_Jac`; a const method, returned alongside the (unchanged) state. -/
def NewtonSystem.getJacobian (s : NewtonSystem n) :
    Mat n × NewtonSystem n :=
  (s.mat_trans.getJacobian s.Jac, s)

/-- Newton `isLinear`: `_time_disc.isLinearTimeDisc() || _ode.isLinear()`. -/
def NewtonSystem.isLinear (s : NewtonSystem n) : Bool × NewtonSystem n :=
  (s.time_disc.isLinearTimeDisc || s.ode.isLinear, s)

/-- `TimeDiscretizedODESystem<NonlinearSolverTag::Picard>`: bound
references `_ode`, `_time_disc`, `_mat_trans` and owned scratch storage
`_M`, `_K`, `_b` (no Jacobian). -/
structure PicardSystem (n : ℕ) where
  ode : Ode n
  time_disc : TimeDisc n
  mat_trans : MatrixTranslator n
  M : Mat n
  K : Mat n
  b : Vec n

/-- `assembleMatricesPicard`: same resolution and assembly as the Newton
residual assembly. -/
def PicardSystem.assembleMatricesPicard (s : PicardSystem n)
    (x_new_timestep : Vec n) : PicardSystem n :=
  let t := s.time_disc.getCurrentTime
  let x_curr := s.time_disc.getCurrentX x_new_timestep
  let MKb := s.ode.assemble t x_curr
  { s with M := MKb.1, K := MKb.2.1, b := MKb.2.2 }

/-- Picard `getA`: the source delegates to `_time_disc.getA(_M, _K)` — the
strategy, not the bound matrix translator. -/
def PicardSystem.getA (s : PicardSystem n) : Mat n × PicardSystem n :=
  (s.time_disc.getA s.M s.K, s)

/-- Picard `getRhs`: the source delegates to `_time_disc.getRhs(_M, _K, _b)`. -/
def PicardSystem.getRhs (s : PicardSystem n) : Vec n × PicardSystem n :=
  (s.time_disc.getRhs s.M s.K s.b, s)

/-- Picard `isLinear`: `_time_disc.isLinearTimeDisc() || _ode.isLinear()`. -/
def PicardSystem.isLinear (s : PicardSystem n) : Bool × PicardSystem n :=
  (s.time_disc.isLinearTimeDisc || s.ode.isLinear, s)

/-! Concrete instances used by counterexamples and witnesses. -/

/-- A strategy whose scheme is linear (`isLinearTimeDisc = true`); the
remaining fields are simple placeholders. -/
def tdLinear : TimeDisc 1 :=
  { getCurrentTime := 0
    getCurrentXWeight := 1
    getCurrentX := fun x => x
    getWeightedOldX := fun _ => 0
    getXOld := fun _ => 0
    getDxDx := 0
    isLinearTimeDisc := true
    adjustMatrix := fun Jac => Jac
    getA := fun M K => M + K
    getRhs := fun _M _K b => b }

/-- A nonlinear equation (`isLinear = false`) with placeholder assembly. -/
def odeNonlinear : Ode 1 :=
  { isLinear := false
    assemble := fun _ _ => (0, 0, 0)
    assembleJacobian := fun _ _ _ _ Jac => Jac }

/-- Newton adapter binding the linear strategy `tdLinear` to the nonlinear
equation `odeNonlinear`. -/
def newtonMixed : NewtonSystem 1 :=
  { ode := odeNonlinear
    time_disc := tdLinear
    mat_trans := matrixTranslatorGeneral tdLinear
    Jac := 0
    M := 0
    K := 0
    b := 0 }

/-- Mass matrix of the spec's concrete one-dimensional scenario: `M = [1]`. -/
def M8 : Mat 1 := Matrix.of fun _ _ => 1

/-- Stiffness matrix of the concrete scenario: `K = [2]`. -/
def K8 : Mat 1 := Matrix.of fun _ _ => 2

/-- Load vector of the concrete scenario: `b = [3]`. -/
def b8 : Vec 1 := fun _ => 3

/-- The exact solution `x = [3.5/3] = [7/6]` of `A x = rhs` for the general
translator in the concrete scenario. -/
def x8 : Vec 1 := fun _ => 7/6

/-- The implicit-Euler-like strategy of the spec's concrete scenario:
weight `alpha = 1`, `currentX` the identity (implicit evaluation point),
`weightedOldX = [0.5]`, `xOld = [1]`. -/
def td8 : TimeDisc 1 :=
  { getCurrentTime := 0
    getCurrentXWeight := 1
    getCurrentX := fun x => x
    getWeightedOldX := fun _ => 1/2
    getXOld := fun _ => 1
    getDxDx := 1
    isLinearTimeDisc := true
    adjustMatrix := fun Jac => Jac
    getA := fun M K => M + K
    getRhs := fun _M _K b => b }

/-- A forward-Euler-style strategy: the evaluation point `currentX` is the
constant old state `xOld = [1]` regardless of its argument, with weight `1`
and `weightedOldX = [0.5]` — the scheme shape the forward-explicit
translator is bound to. -/
def tdFwd : TimeDisc 1 :=
  { getCurrentTime := 0
    getCurrentXWeight := 1
    getCurrentX := fun _ => fun _ => 1
    getWeightedOldX := fun _ => 1/2
    getXOld := fun _ => 1
    getDxDx := 1
    isLinearTimeDisc := true
    adjustMatrix := fun Jac => Jac
    getA := fun M K => M + K
    getRhs := fun _M _K b => b }

/-- The vector `[3/2]`, the exact solution of the forward-explicit system
`(alpha • M8) x = b8 + M8 *ᵥ weightedOldX - K8 *ᵥ xOld` built from
`tdFwd`, `M8`, `K8`, `b8`. -/
def x6 : Vec 1 := fun _ => 3/2

/-! Theorems settling the claims. -/

/-- Claim C1, counterexample: with a linear time discretization and a
nonlinear equation, the adapter's `isLinear` returns `true`, while the
conjunction of the two linearity flags is `false` — so `isLinear` is not
"true exactly when both are true". -/
theorem isLinear_is_not_the_conjunction :
    (newtonMixed.isLinear).1 = true ∧
      (newtonMixed.time_disc.isLinearTimeDisc
        && newtonMixed.ode.isLinear) = false :=
  ⟨rfl, rfl⟩

/-- Claim C1 (amended): for every bound Equation and strategy, both
adapters' `isLinear` equals the disjunction of the strategy's
`isLinearTimeDisc` and the Equation's `isLinear`: it is `true` whenever at
least one of them is `true`, and `false` only when both are `false`. -/
theorem isLinear_eq_disjunction (sN : NewtonSystem n) (sP : PicardSystem n) :
    (sN.isLinear).1 = (sN.time_disc.isLinearTimeDisc || sN.ode.isLinear) ∧
      (sP.isLinear).1 = (sP.time_disc.isLinearTimeDisc || sP.ode.isLinear) :=
  ⟨rfl, rfl⟩

/-- Claim C2: the adapters' `isLinear` returns `true` if and only if the
strategy's `isLinearTimeDisc` is `true` or the Equation's `isLinear` is
`true`; the same rule for the Newton and the Picard adapter. -/
theorem isLinear_iff_or (sN : NewtonSystem n) (sP : PicardSystem n) :
    ((sN.isLinear).1 = true ↔
      sN.time_disc.isLinearTimeDisc = true ∨ sN.ode.isLinear = true) ∧
    ((sP.isLinear).1 = true ↔
      sP.time_disc.isLinearTimeDisc = true ∨ sP.ode.isLinear = true) := by
  constructor <;>
    simp [NewtonSystem.isLinear, PicardSystem.isLinear, Bool.or_eq_true]

/-- Claim C3: for every `M`, `K` and strategy, the general translator's
`getA M K` is `alpha • M + K` and the forward-Euler translator's `getA M K`
is `alpha • M`, where `alpha` is the strategy's current-x weight; the
forward variant ignores `K`. -/
theorem getA_formulas (td : TimeDisc n) (M K K2 : Mat n) :
    (matrixTranslatorGeneral td).getA M K = td.getCurrentXWeight • M + K ∧
    (matrixTranslatorForwardEuler td).getA M K = td.getCurrentXWeight • M ∧
    (matrixTranslatorForwardEuler td).getA M K
      = (matrixTranslatorForwardEuler td).getA M K2 :=
  ⟨rfl, rfl, rfl⟩

/-- Claim C4: for every `M`, `K`, `b` and strategy, the general
translator's `getRhs` is `b + M *ᵥ weightedOldX` (ignoring `K`), and the
forward-Euler translator's `getRhs` is
`b + M *ᵥ weightedOldX - K *ᵥ xOld`. -/
theorem getRhs_formulas (td : TimeDisc n) (M K K2 : Mat n) (b : Vec n) :
    (matrixTranslatorGeneral td).getRhs M K b
      = b + M.mulVec td.getWeightedOldX ∧
    (matrixTranslatorGeneral td).getRhs M K b
      = (matrixTranslatorGeneral td).getRhs M K2 b ∧
    (matrixTranslatorForwardEuler td).getRhs M K b
      = b + M.mulVec td.getWeightedOldX - K.mulVec td.getXOld :=
  ⟨rfl, rfl, rfl⟩

/-- Claim C5: both translator variants compute the identical residual
`M *ᵥ (alpha • x_new - weightedOldX) + K *ᵥ currentX x_new - b` given the
same strategy views: each refines the spec-side formula `residualSpec`,
hence they are extensionally equal. -/
theorem getResidual_variants_agree (td : TimeDisc n) (M K : Mat n)
    (b x_new : Vec n) :
    (matrixTranslatorGeneral td).getResidual M K b x_new
      = residualSpec td M K b x_new ∧
    (matrixTranslatorForwardEuler td).getResidual M K b x_new
      = residualSpec td M K b x_new ∧
    (matrixTranslatorGeneral td).getResidual M K b x_new
      = (matrixTranslatorForwardEuler td).getResidual M K b x_new :=
  ⟨rfl, rfl, rfl⟩

/-- Claim C7: `getJacobian` of both translator variants returns its input
matrix unchanged (identity law). -/
theorem getJacobian_identity (td : TimeDisc n) (Jac : Mat n) :
    (matrixTranslatorGeneral td).getJacobian Jac = Jac ∧
    (matrixTranslatorForwardEuler td).getJacobian Jac = Jac :=
  ⟨rfl, rfl⟩

/-- Claim C9: only the assembly operations mutate adapter-owned state.
The Newton adapter's `getResidual`, `getJacobian`, `isLinear` and the
Picard adapter's `getA`, `getRhs`, `isLinear` return the state unchanged;
`assembleResidualNewton` and `assembleMatricesPicard` write only
`M`, `K`, `b` (leaving `Jac` and the bound references untouched), and
`assembleJacobian` writes only `Jac`. -/
theorem only_assembly_mutates (sN : NewtonSystem n) (sP : PicardSystem n)
    (x : Vec n) :
    (sN.getResidual x).2 = sN ∧
    (sN.getJacobian).2 = sN ∧
    (sN.isLinear).2 = sN ∧
    (sP.getA).2 = sP ∧
    (sP.getRhs).2 = sP ∧
    (sP.isLinear).2 = sP ∧
    (sN.assembleResidualNewton x).Jac = sN.Jac ∧
    (sN.assembleResidualNewton x).ode = sN.ode ∧
    (sN.assembleResidualNewton x).time_disc = sN.time_disc ∧
    (sN.assembleResidualNewton x).mat_trans = sN.mat_trans ∧
    (sN.assembleJacobian x).M = sN.M ∧
    (sN.assembleJacobian x).K = sN.K ∧
    (sN.assembleJacobian x).b = sN.b ∧
    (sN.assembleJacobian x).ode = sN.ode ∧
    (sN.assembleJacobian x).time_disc = sN.time_disc ∧
    (sN.assembleJacobian x).mat_trans = sN.mat_trans ∧
    (sP.assembleMatricesPicard x).ode = sP.ode ∧
    (sP.assembleMatricesPicard x).time_disc = sP.time_disc ∧
    (sP.assembleMatricesPicard x).mat_trans = sP.mat_trans :=
  ⟨rfl, rfl, rfl, rfl, rfl, rfl, rfl, rfl, rfl, rfl, rfl, rfl, rfl, rfl,
    rfl, rfl, rfl, rfl, rfl⟩

/-- Claim C10: the Picard adapter never invokes its bound matrix
translator: its `getA` equals the strategy's `getA M K` and its `getRhs`
equals the strategy's `getRhs M K b`, so two Picard adapters bound to the
same strategy and matrices but different translator instances produce
identical results. -/
theorem picard_ignores_translator (ode : Ode n) (td : TimeDisc n)
    (mt mt2 : MatrixTranslator n) (M K : Mat n) (b : Vec n) :
    (PicardSystem.getA ⟨ode, td, mt, M, K, b⟩).1 = td.getA M K ∧
    (PicardSystem.getRhs ⟨ode, td, mt, M, K, b⟩).1 = td.getRhs M K b ∧
    (PicardSystem.getA ⟨ode, td, mt, M, K, b⟩).1
      = (PicardSystem.getA ⟨ode, td, mt2, M, K, b⟩).1 ∧
    (PicardSystem.getRhs ⟨ode, td, mt, M, K, b⟩).1
      = (PicardSystem.getRhs ⟨ode, td, mt2, M, K, b⟩).1 :=
  ⟨rfl, rfl, rfl, rfl⟩

/-- Claim C6: over exact rational arithmetic, for every strategy with
weight `alpha > 0`, each translator variant independently satisfies: if
`x` solves the linear system `A x = rhs` built by that variant, the
variant's residual at `x` is the zero vector. The two conjuncts carry
their own hypotheses only, so each variant's instance is derivable without
any condition on the other variant. The antecedents `currentX x = x`
(general/implicit binding) and `currentX y = xOld` (forward-Euler binding)
record the spec's section 4.1 characterisation of the bound scheme's
evaluation point, `TimeDiscretization.h` not being among the provided
sources. A linear Equation makes `M`, `K`, `b` state-independent, which
the fixed `M`, `K`, `b` here embody. -/
theorem residual_zero_at_exact_solution (td : TimeDisc n) (M K : Mat n)
    (b x y : Vec n)
    (halpha : 0 < td.getCurrentXWeight) :
    (td.getCurrentX x = x →
      ((matrixTranslatorGeneral td).getA M K).mulVec x
        = (matrixTranslatorGeneral td).getRhs M K b →
      (matrixTranslatorGeneral td).getResidual M K b x = 0) ∧
    (td.getCurrentX y = td.getXOld →
      ((matrixTranslatorForwardEuler td).getA M K).mulVec y
        = (matrixTranslatorForwardEuler td).getRhs M K b →
      (matrixTranslatorForwardEuler td).getResidual M K b y = 0) := by
  constructor
  · intro hcurG hsolG
    simp only [matrixTranslatorGeneral] at hsolG ⊢
    rw [Matrix.add_mulVec, Matrix.smul_mulVec_assoc] at hsolG
    rw [hcurG, Matrix.mulVec_sub, Matrix.mulVec_smul_assoc]
    have hb : b = td.getCurrentXWeight • M.mulVec x + K.mulVec x
        - M.mulVec td.getWeightedOldX := eq_sub_of_add_eq hsolG.symm
    rw [hb]
    abel
  · intro hcurF hsolF
    simp only [matrixTranslatorForwardEuler] at hsolF ⊢
    rw [Matrix.smul_mulVec_assoc] at hsolF
    rw [hcurF, Matrix.mulVec_sub, Matrix.mulVec_smul_assoc]
    have hb : b = td.getCurrentXWeight • M.mulVec y
        - M.mulVec td.getWeightedOldX + K.mulVec td.getXOld := by
      rw [hsolF]
      abel
    rw [hb]
    abel

/-- Witness for claim C6, one concrete instance per conjunct: at the
implicit strategy `td8` with `M8 = [1]`, `K8 = [2]`, `b8 = [3]`, the
general system's exact solution `x8 = [7/6]` gives zero residual; at the
forward-Euler strategy `tdFwd` with the same matrices, the forward
system's exact solution `x6 = [3/2]` gives zero residual. -/
theorem residual_zero_at_exact_solution_witness :
    (0 < td8.getCurrentXWeight ∧
      (matrixTranslatorGeneral td8).getResidual M8 K8 b8 x8 = 0) ∧
    (0 < tdFwd.getCurrentXWeight ∧
      (matrixTranslatorForwardEuler tdFwd).getResidual M8 K8 b8 x6 = 0) :=
  ⟨⟨by norm_num [td8],
    (residual_zero_at_exact_solution td8 M8 K8 b8 x8 x8
        (by norm_num [td8])).1
      rfl
      (by
        funext i
        fin_cases i
        simp [matrixTranslatorGeneral, td8, M8, K8, b8, x8, Matrix.mulVec,
          Matrix.dotProduct, Fin.sum_univ_one]
        norm_num)⟩,
   ⟨by norm_num [tdFwd],
    (residual_zero_at_exact_solution tdFwd M8 K8 b8 x6 x6
        (by norm_num [tdFwd])).2
      rfl
      (by
        funext i
        fin_cases i
        simp [matrixTranslatorForwardEuler, tdFwd, M8, K8, b8, x6,
          Matrix.mulVec, Matrix.dotProduct, Fin.sum_univ_one]
        norm_num)⟩⟩

/-- Claim C8: in the concrete one-dimensional scenario `M = [1]`,
`K = [2]`, `b = [3]`, `alpha = 1`, `weightedOldX = [0.5]`, the general
translator yields `A = [3]`, `rhs = [3.5]` and zero residual at
`x = [3.5/3]`; with `xOld = [1]` the forward-Euler translator yields
`A = [1]` and `rhs = [1.5]`. -/
theorem concrete_scenario_dimension_one :
    (matrixTranslatorGeneral td8).getA M8 K8 = Matrix.of (fun _ _ => 3) ∧
    (matrixTranslatorGeneral td8).getRhs M8 K8 b8 = (fun _ => 7/2) ∧
    (matrixTranslatorGeneral td8).getResidual M8 K8 b8 x8 = 0 ∧
    (matrixTranslatorForwardEuler td8).getA M8 K8
      = Matrix.of (fun _ _ => 1) ∧
    (matrixTranslatorForwardEuler td8).getRhs M8 K8 b8 = (fun _ => 3/2) := by
  refine ⟨?_, ?_, ?_, ?_, ?_⟩ <;>
    · funext i
      try funext j
      fin_cases i <;>
        simp [matrixTranslatorGeneral, matrixTranslatorForwardEuler, td8,
          M8, K8, b8, x8, Matrix.mulVec, Matrix.dotProduct,
          Fin.sum_univ_one] <;> norm_num

end OGS
